import Mathlib

/-!
Verification of the PumpFun Bundler configuration CLI (src/unnamed/part_000 and
src/main.ts).  The CLI is a menu loop that edits an `.env`-style text file via
string search/replace, keeps five in-memory status booleans, and computes a
transaction-fee preview.

Embedding conventions:
* File contents and prompt inputs are `List Char` (JavaScript strings).
  `config.split('\n')` is `splitLines`, `lines.join('\n')` is `joinLines`,
  `s.includes(pat)` is `jsIncludes`, `s.startsWith(p)` is `jsStartsWith`.
* JavaScript numbers are idealized as exact rationals (`ℚ`) where fractional
  arithmetic occurs (fee preview) and as `ℤ`/`ℕ` for parsed integer inputs;
  IEEE-754 rounding, `NaN` from `parseInt`, and `toFixed` display strings are
  outside the embedding.
* A file that may not exist (`fs.existsSync`) is `Option (List Char)`.
* A thrown JavaScript exception is `Except.error ()`; code that cannot throw
  in the modelled fragment returns plainly.
-/

abbrev Str := List Char

/-- Embeds `config.split('\n')`: JavaScript split on a one-character separator
(`''.split('\n') = ['']`). -/
def splitLines : Str → List Str
  | [] => [[]]
  | c :: rest =>
    if c = '\n' then [] :: splitLines rest
    else
      match splitLines rest with
      | [] => [[c]]
      | l :: ls => (c :: l) :: ls

/-- Embeds `lines.join('\n')`. -/
def joinLines (ls : List Str) : Str := List.intercalate ['\n'] ls

/-- Embeds `s.includes(pat)`: substring test. -/
def jsIncludes (s pat : Str) : Bool := decide (pat <:+: s)

/-- Embeds `s.startsWith(p)`. -/
def jsStartsWith (s p : Str) : Bool := decide (p <+: s)

/-- Embeds `s.toLowerCase()`. -/
def jsToLower (s : Str) : Str := s.map Char.toLower

/-- Index of the first occurrence of `pat` in the subject string, if any:
where a non-global regex made of the literal `pat` (no metacharacters)
starts matching. -/
def findSub (pat : Str) : Str → Option ℕ
  | [] => if pat.isEmpty then some 0 else none
  | c :: rest =>
    if jsStartsWith (c :: rest) pat then some 0
    else (findSub pat rest).map (· + 1)

/-- Characters that make `$c` a replacement pattern of ECMAScript
GetSubstitution when the regex has no capture groups: `$` (literal dollar),
`&` (matched text), backtick (preceding portion), apostrophe (following
portion).  `$` followed by anything else — including digits, since these
regexes have no capture groups — is used literally. -/
def isReplEscape (d : Char) : Bool :=
  (d == '$') || (d == '&') || (d == Char.ofNat 96) || (d == Char.ofNat 39)

/-- True when the string contains a `$` immediately followed by one of the
replacement-escape characters, i.e. when GetSubstitution would rewrite it. -/
def hasDollarPattern : Str → Bool
  | c :: d :: rest => ((c == '$') && isReplEscape d) || hasDollarPattern (d :: rest)
  | _ => false

/-- Embeds ECMAScript GetSubstitution for a string replacement and a regex
with no capture groups (the only case in this program): scan the replacement
left to right, expanding `$$` to `$`, `$&` to the matched text, `` $` `` to
the portion of the subject before the match, `$'` to the portion after it,
and leaving any other `$` literal. -/
def getSubstitution (matched before after : Str) : Str → Str
  | [] => []
  | [c] => [c]
  | c :: d :: rest =>
    if c = '$' then
      if d = '$' then '$' :: getSubstitution matched before after rest
      else if d = '&' then matched ++ getSubstitution matched before after rest
      else if d = Char.ofNat 96 then before ++ getSubstitution matched before after rest
      else if d = Char.ofNat 39 then after ++ getSubstitution matched before after rest
      else c :: getSubstitution matched before after (d :: rest)
    else c :: getSubstitution matched before after (d :: rest)

/-- Embeds `envContent.replace(/PAT.*/, repl)` for a newline-free literal
pattern `pat` (the keys contain no regex metacharacters and no newline): at
the first occurrence of `pat` the regex matches `pat` plus the rest of that
line (`.` does not match `'\n'`), and the match is replaced by `repl` after
GetSubstitution expansion of any `$`-patterns in `repl`; if `pat` does not
occur, the string is unchanged. -/
def replaceFirst (pat repl s : Str) : Str :=
  match findSub pat s with
  | none => s
  | some i =>
    let before := s.take i
    let tail0 := s.drop (i + pat.length)
    let matched := pat ++ tail0.takeWhile (fun c => !(c == '\n'))
    let after := tail0.dropWhile (fun c => !(c == '\n'))
    before ++ getSubstitution matched before after repl ++ after

/-- The shared upsert step of `handleConfigureWallet` (lines 123-127),
`handleConfigureRPC` (lines 155-159) and the `handleConfigureFees` loop
(lines 230-237): if `KEY=` occurs anywhere in the content, replace the first
regex match of `KEY=.*` by `KEY=value` (with GetSubstitution applied to the
replacement string, so `$`-patterns inside `value` are expanded), else
append `"\nKEY=value"`.  (The fee keys contain no regex metacharacters, so
`new RegExp(key + "=.*")` is the literal-pattern replace modelled here.) -/
def upsertEnv (env key value : Str) : Str :=
  if jsIncludes env (key ++ ['=']) then
    replaceFirst (key ++ ['=']) (key ++ '=' :: value) env
  else
    env ++ '\n' :: (key ++ '=' :: value)

/-- The key of a `KEY=VALUE` line: the segment before the first `'='`
(`none` when the line contains no `'='`). -/
def lineKey (l : Str) : Option Str :=
  if l.contains '=' then some (l.takeWhile (fun c => !(c == '='))) else none

/-- Decimal digit character. -/
def digitChar (n : ℕ) : Char := Char.ofNat (48 + n)

def natToStrAux : ℕ → ℕ → Str
  | 0, _ => []
  | fuel + 1, n =>
    if n < 10 then [digitChar n]
    else natToStrAux fuel (n / 10) ++ [digitChar (n % 10)]

/-- Decimal rendering of a natural, as JavaScript template interpolation
renders a nonnegative integral number. -/
def natToStr (n : ℕ) : Str := natToStrAux (n + 1) n

/-- Decimal rendering of an integer (JavaScript template interpolation of an
integral number). -/
def intToStr : ℤ → Str
  | .ofNat n => natToStr n
  | .negSucc n => '-' :: natToStr (n + 1)

def isDigitCh (c : Char) : Bool := decide ('0' ≤ c) && decide (c ≤ '9')

/-- Length of a match of `/WALLET_\d+_PRIVATE_KEY/` anchored at the start of
`s`, if any.  Backtracking on `\d+` is vacuous here: the regex continuation
`_PRIVATE_KEY` starts with a non-digit, so only the maximal digit run can be
followed by it. -/
def matchWalletLen (s : Str) : Option ℕ :=
  if jsStartsWith s ("WALLET_".data) then
    let rest := s.drop ("WALLET_".data).length
    let digits := rest.takeWhile isDigitCh
    if digits.isEmpty then none
    else if jsStartsWith (rest.drop digits.length) ("_PRIVATE_KEY".data) then
      some (("WALLET_".data).length + digits.length + ("_PRIVATE_KEY".data).length)
    else none
  else none

def countWalletMatchesAux : ℕ → Str → ℕ
  | 0, _ => 0
  | _ + 1, [] => 0
  | fuel + 1, c :: rest =>
    match matchWalletLen (c :: rest) with
    | some L => 1 + countWalletMatchesAux fuel ((c :: rest).drop L)
    | none => countWalletMatchesAux fuel rest

/-- Embeds `(envContent.match(/WALLET_\d+_PRIVATE_KEY/g) || []).length` (addWallet,
line 320): the number of left-to-right non-overlapping matches.  (No two
matches of this pattern can overlap, since a match contains `'W'` only at its
start.) -/
def countWalletMatches (s : Str) : ℕ := countWalletMatchesAux s.length s

/-- Embeds the template `` `WALLET_${n}_PRIVATE_KEY` `` (addWallet, line 321). -/
def walletKeyName (n : ℕ) : Str :=
  "WALLET_".data ++ natToStr n ++ "_PRIVATE_KEY".data

theorem takeWhile_key (key v : Str) (hk : '=' ∉ key) :
    (key ++ '=' :: v).takeWhile (fun c => !(c == '=')) = key := by
  induction key with
  | nil =>
    rw [List.nil_append, List.takeWhile_cons]
    simp
  | cons c k ih =>
    have hc : c ≠ '=' := fun h => hk (h ▸ List.mem_cons_self c k)
    have hk2 : '=' ∉ k := fun h => hk (List.mem_cons_of_mem c h)
    rw [List.cons_append, List.takeWhile_cons]
    simp only [bne_iff_ne, ne_eq, Bool.not_eq_eq_eq_not, Bool.not_true,
      beq_eq_false_iff_ne]
    rw [if_pos (by simpa using hc), ih hk2]

theorem contains_of_mem {l : Str} {c : Char} (h : c ∈ l) : l.contains c = true := by
  simp [List.contains_eq_any_beq, List.any_eq_true]
  exact h

theorem lineKey_key_line {key v : Str} (hk : '=' ∉ key) :
    lineKey (key ++ '=' :: v) = some key := by
  rw [lineKey, if_pos (contains_of_mem (List.mem_append_right key (List.mem_cons_self '=' v))),
    takeWhile_key key v hk]

theorem dropWhile_mem_eq {l : Str} (h : '=' ∈ l) :
    ∃ t, l.dropWhile (fun c => !(c == '=')) = '=' :: t := by
  induction l with
  | nil => exact absurd h (List.not_mem_nil '=')
  | cons c rest ih =>
    by_cases hc : c = '='
    · subst hc
      exact ⟨rest, by rw [List.dropWhile_cons]; simp⟩
    · have hrest : '=' ∈ rest := by
        rcases List.mem_cons.mp h with h1 | h2
        · exact absurd h1.symm hc
        · exact h2
      obtain ⟨t, ht⟩ := ih hrest
      exact ⟨t, by rw [List.dropWhile_cons, if_pos (by simpa using hc)]; exact ht⟩

theorem mem_of_contains {l : Str} {c : Char} (h : l.contains c = true) : c ∈ l := by
  simp [List.contains_eq_any_beq, List.any_eq_true] at h
  exact h

theorem lineKey_some_imp {l key : Str} (h : lineKey l = some key) :
    (key ++ ['=']) <+: l := by
  rw [lineKey] at h
  by_cases hc : l.contains '=' = true
  · rw [if_pos hc] at h
    injection h with h2
    obtain ⟨t, ht⟩ := dropWhile_mem_eq (mem_of_contains hc)
    refine ⟨t, ?_⟩
    have hdecomp := List.takeWhile_append_dropWhile (fun c => !(c == '=')) l
    rw [h2, ht] at hdecomp
    rw [← hdecomp]
    simp
  · rw [if_neg hc] at h
    exact absurd h (by simp)

theorem filter_ne_eq_erase (l : List Str) (a : Str) (h : l.count a ≤ 1) :
    l.filter (fun x => !(x == a)) = l.erase a := by
  induction l with
  | nil => rfl
  | cons x rest ih =>
    rw [List.count_cons] at h
    by_cases hx : x = a
    · subst hx
      have h0 : rest.count x = 0 := by simpa using h
      have hnm : x ∉ rest := by
        rw [← List.count_pos_iff]
        omega
      rw [List.filter_cons]
      simp only [beq_self_eq_true, Bool.not_true, if_neg (by simp : ¬ (false = true))]
      rw [List.erase_cons_head, List.filter_eq_self.mpr]
      intro b hb
      simp only [Bool.not_eq_true', beq_eq_false_iff_ne, ne_eq]
      exact fun hba => hnm (hba ▸ hb)
    · have h1 : rest.count a ≤ 1 := by
        have : (if (x == a) = true then 1 else 0) = 0 := by
          simp [hx]
        omega
      rw [List.filter_cons]
      rw [if_pos (by simpa using hx), List.erase_cons_tail (by simpa using hx), ih h1]

theorem eraseIdx_eq_erase_of_count_one (l : List Str) (a : Str) :
    ∀ i, l.count a = 1 → l[i]? = some a → l.eraseIdx i = l.erase a := by
  induction l with
  | nil => intro i _ hi; simp at hi
  | cons x rest ih =>
    intro i hc hi
    cases i with
    | zero =>
      simp only [List.getElem?_cons_zero, Option.some.injEq] at hi
      subst hi
      rw [List.erase_cons_head, List.eraseIdx_zero, List.tail_cons]
    | succ i' =>
      simp only [List.getElem?_cons_succ] at hi
      have hmem : a ∈ rest := by
        have := List.getElem?_eq_some_iff.mp hi
        obtain ⟨hlt, hget⟩ := this
        exact hget ▸ List.getElem_mem hlt
      have hxa : x ≠ a := by
        intro hxa
        subst hxa
        rw [List.count_cons_self] at hc
        have h0 : rest.count x = 0 := by omega
        rw [← List.count_pos_iff] at hmem
        omega
      rw [List.count_cons] at hc
      have hbeq : (x == a) = false := beq_eq_false_iff_ne.mpr hxa
      rw [hbeq] at hc
      simp only [Bool.false_eq_true, if_false, Nat.add_zero] at hc
      rw [List.eraseIdx_cons_succ, List.erase_cons_tail (by simpa using hxa),
        ih i' hc hi]

/-- Index (0-based, in the full line list) of the `j`-th (0-based)
`WALLET_`-prefixed line: the position the C3 claim says `removeWallet`
removes. -/
def nthWalletIdx : List Str → ℕ → Option ℕ
  | [], _ => none
  | l :: rest, j =>
    if jsStartsWith l ("WALLET_".data) then
      match j with
      | 0 => some 0
      | j' + 1 => (nthWalletIdx rest j').map (· + 1)
    else (nthWalletIdx rest j).map (· + 1)

/-- Modelled from the claim's words, for comparison with `removeWallet`:
remove exactly the `k`-th (1-based) `WALLET_`-prefixed line, leaving every
other line unchanged and in order. -/
def removeKthWalletSpec (envContent : Str) (k : ℕ) : Option Str :=
  match nthWalletIdx (splitLines envContent) (k - 1) with
  | none => none
  | some i => some (joinLines ((splitLines envContent).eraseIdx i))

theorem nthWalletIdx_get (lines : List Str) :
    ∀ j, j < (lines.filter (fun l => jsStartsWith l ("WALLET_".data))).length →
      ∃ i, nthWalletIdx lines j = some i ∧
        lines[i]? = (lines.filter (fun l => jsStartsWith l ("WALLET_".data)))[j]? := by
  induction lines with
  | nil => intro j hj; simp at hj
  | cons l rest ih =>
    intro j hj
    by_cases hp : jsStartsWith l ("WALLET_".data) = true
    · have hfil : (l :: rest).filter (fun l => jsStartsWith l ("WALLET_".data))
          = l :: rest.filter (fun l => jsStartsWith l ("WALLET_".data)) := by
        rw [List.filter_cons, if_pos hp]
      cases j with
      | zero =>
        refine ⟨0, ?_, ?_⟩
        · simp [nthWalletIdx, hp]
        · rw [hfil]
          simp
      | succ j' =>
        rw [hfil, List.length_cons] at hj
        obtain ⟨i, hi1, hi2⟩ := ih j' (Nat.lt_of_succ_lt_succ hj)
        refine ⟨i + 1, ?_, ?_⟩
        · simp [nthWalletIdx, hp, hi1]
        · rw [hfil, List.getElem?_cons_succ, List.getElem?_cons_succ]
          exact hi2
    · have hpf : jsStartsWith l ("WALLET_".data) = false := by
        simpa using hp
      have hfil : (l :: rest).filter (fun l => jsStartsWith l ("WALLET_".data))
          = rest.filter (fun l => jsStartsWith l ("WALLET_".data)) := by
        rw [List.filter_cons, if_neg (by simp [hpf])]
      rw [hfil] at hj
      obtain ⟨i, hi1, hi2⟩ := ih j hj
      refine ⟨i + 1, ?_, ?_⟩
      · simp [nthWalletIdx, hpf, hi1]
      · rw [hfil, List.getElem?_cons_succ]
        exact hi2

/-- The five status booleans (interface `SystemStatus`, lines 11-17). -/
structure SystemStatus where
  walletConfigured : Bool
  rpcConfigured : Bool
  keypairsCreated : Bool
  poolBundleReady : Bool
  feeSettingsConfigured : Bool
deriving DecidableEq

/-- Fee settings (interface `FeeSettings`, lines 19-23); the two numeric
fields are JavaScript numbers, idealized as rationals. -/
structure FeeSettings where
  minTipLamports : ℚ
  tipPercent : ℚ
  feeRecipient : Str
deriving DecidableEq

/-- Transaction fee preview (interface `TransactionPreview`, lines 25-30).
The `estimatedCost` display string (floating-point `toFixed`) is not
modelled. -/
structure TransactionPreview where
  baseFee : ℚ
  tipAmount : ℚ
  totalFee : ℚ
deriving DecidableEq

def LAMPORTS_PER_SOL : ℚ := 1000000000

/-- Constructor defaults (lines 39-51). -/
def initialStatus : SystemStatus :=
  { walletConfigured := false, rpcConfigured := false, keypairsCreated := false,
    poolBundleReady := false, feeSettingsConfigured := false }

def defaultFeeSettings : FeeSettings :=
  { minTipLamports := 10000, tipPercent := 50,
    feeRecipient := "CebN5WGQ4jvEPvsVU4EoHEpgzq1VV7AbicfhtW4xC9iM".data }

/-- Embeds `loadStatus` (lines 55-64): derive status flags by substring search over
the config file; a missing file leaves the constructor defaults (all
`false`).  `keypairsCreated` and `poolBundleReady` are never read from the
file. -/
def loadStatus (file : Option Str) : SystemStatus :=
  match file with
  | none => initialStatus
  | some config =>
    { walletConfigured := jsIncludes config ("WALLET_PRIVATE_KEY=".data)
      rpcConfigured := jsIncludes config ("RPC_URL=".data)
      keypairsCreated := false
      poolBundleReady := false
      feeSettingsConfigured := jsIncludes config ("MIN_TIP_LAMPORTS=".data) &&
        jsIncludes config ("TIP_PERCENT=".data) &&
        jsIncludes config ("FEE_RECIPIENT=".data) }

/-- Embeds `calculateTransactionPreview` (lines 173-187). -/
def calculateTransactionPreview (settings : FeeSettings) (amount : ℚ) :
    TransactionPreview :=
  let baseFee : ℚ := 5000
  let tipAmount : ℚ :=
    max settings.minTipLamports ((⌊amount * (settings.tipPercent / 100)⌋ : ℤ) : ℚ)
  { baseFee := baseFee, tipAmount := tipAmount, totalFee := baseFee + tipAmount }

/-- The mutable state of the `CLI` singleton: status flags, the `.env` file
(`none` = not created yet), and the in-memory fee settings. -/
structure CliState where
  status : SystemStatus
  file : Option Str
  feeSettings : FeeSettings
deriving DecidableEq

/-- Embeds `handleConfigureWallet` (lines 104-139).  Returns the new state and
`true` for the success message / `false` when an error message is printed
(`Invalid key format` is thrown and caught in the handler; an empty prompt
prints `Invalid wallet key`). -/
def handleConfigureWallet (st : CliState) (walletKey : Str) : CliState × Bool :=
  if walletKey.isEmpty then (st, false)
  else if walletKey.length < 32 then (st, false)
  else
    let envContent := st.file.getD []
    let env' := upsertEnv envContent ("WALLET_PRIVATE_KEY".data) walletKey
    ({ st with status := { st.status with walletConfigured := true },
               file := some env' }, true)

/-- Embeds `handleConfigureRPC` (lines 141-171): any non-empty URL is accepted. -/
def handleConfigureRPC (st : CliState) (rpcUrl : Str) : CliState × Bool :=
  if rpcUrl.isEmpty then (st, false)
  else
    let envContent := st.file.getD []
    let env' := upsertEnv envContent ("RPC_URL".data) rpcUrl
    ({ st with status := { st.status with rpcConfigured := true },
               file := some env' }, true)

/-- Embeds `handleConfigureFees` (lines 198-247).  Inputs are the prompt results
after the `|| default` fallbacks, parsed as integers (`parseInt`); a `NaN`
entry is outside the embedding.  Validation failures throw, are caught, and
leave the state untouched; otherwise the three keys are upserted in order
and the in-memory fee settings replaced. -/
def handleConfigureFees (st : CliState) (minTipLamports tipPercent : ℤ)
    (feeRecipient : Str) : CliState × Bool :=
  if minTipLamports < 0 then (st, false)
  else if tipPercent < 0 ∨ 100 < tipPercent then (st, false)
  else if feeRecipient.length < 32 then (st, false)
  else
    let envContent := st.file.getD []
    let env1 := upsertEnv envContent ("MIN_TIP_LAMPORTS".data) (intToStr minTipLamports)
    let env2 := upsertEnv env1 ("TIP_PERCENT".data) (intToStr tipPercent)
    let env3 := upsertEnv env2 ("FEE_RECIPIENT".data) feeRecipient
    ({ status := { st.status with feeSettingsConfigured := true },
       file := some env3,
       feeSettings := { minTipLamports := (minTipLamports : ℚ),
                        tipPercent := (tipPercent : ℚ),
                        feeRecipient := feeRecipient } }, true)

/-- Embeds `viewWallets` (lines 281-301).  It has no try/catch: for each
`WALLET_`-prefixed line it destructures `line.split('=')` and calls
`value.slice`, which throws a `TypeError` when the line contains no `'='`
(`value` is `undefined`).  `Except.error ()` is that uncaught throw. -/
def viewWallets (file : Option Str) : Except Unit Unit :=
  match file with
  | none => Except.ok ()
  | some config =>
    let walletLines := (splitLines config).filter (fun l => jsStartsWith l ("WALLET_".data))
    if walletLines.any (fun l => !(l.contains '=')) then Except.error ()
    else Except.ok ()

/-- Outcome of `addWallet` (lines 303-330): `added` (success message),
`invalidKey` (`Invalid key format` thrown, caught, error printed), or
`noInput` — the empty prompt fails the `if (walletKey)` guard and the
function returns with no message at all. -/
inductive WalletAddResult
  | added
  | invalidKey
  | noInput
deriving DecidableEq

/-- Embeds `addWallet` (lines 303-330): count existing `WALLET_<digits>_PRIVATE_KEY`
occurrences, then append `WALLET_<count+1>_PRIVATE_KEY=<key>` as a new
line. -/
def addWallet (file : Option Str) (walletKey : Str) : Option Str × WalletAddResult :=
  if walletKey.isEmpty then (file, .noInput)
  else if walletKey.length < 32 then (file, .invalidKey)
  else
    let envContent := file.getD []
    let walletCount := countWalletMatches envContent
    let env' := envContent ++ '\n' :: (walletKeyName (walletCount + 1) ++ '=' :: walletKey)
    (some env', .added)

/-- Embeds `removeWallet` (lines 332-356).  It first calls `viewWallets` outside any
try/catch (line 334), so a throw there propagates.  With a positive index in
range it keeps every line *not equal* to the selected wallet line
(`lines.filter(line => line !== walletToRemove)`) and writes the join; a
missing file or bad index is caught inside the handler (`false`). -/
def removeWallet (st : CliState) (walletIndex : ℤ) : Except Unit (CliState × Bool) :=
  match viewWallets st.file with
  | Except.error e => Except.error e
  | Except.ok _ =>
    if 0 < walletIndex then
      match st.file with
      | none => Except.ok (st, false)
      | some envContent =>
        let lines := splitLines envContent
        let walletLines := lines.filter (fun l => jsStartsWith l ("WALLET_".data))
        if walletIndex.toNat ≤ walletLines.length then
          let walletToRemove := walletLines.getD (walletIndex.toNat - 1) []
          let env' := joinLines (lines.filter (fun l => !(l == walletToRemove)))
          Except.ok ({ st with file := some env' }, true)
        else Except.ok (st, false)
    else Except.ok (st, false)

/-- Embeds `setPrimaryWallet` (lines 358-391).  Also calls `viewWallets` outside the
try (line 360).  The promoted value is `selectedWallet.split('=')[1]`: the
segment between the first and second `'='`; a line without `'='` yields the
literal string `"undefined"` via template interpolation. -/
def setPrimaryWallet (st : CliState) (walletIndex : ℤ) : Except Unit (CliState × Bool) :=
  match viewWallets st.file with
  | Except.error e => Except.error e
  | Except.ok _ =>
    if 0 < walletIndex then
      match st.file with
      | none => Except.ok (st, false)
      | some envContent =>
        let lines := splitLines envContent
        let walletLines := lines.filter (fun l => jsStartsWith l ("WALLET_".data))
        if walletIndex.toNat ≤ walletLines.length then
          let selectedWallet := walletLines.getD (walletIndex.toNat - 1) []
          let value :=
            if selectedWallet.contains '=' then
              ((selectedWallet.dropWhile (fun c => !(c == '='))).drop 1).takeWhile
                (fun c => !(c == '='))
            else "undefined".data
          let env' := upsertEnv envContent ("WALLET_PRIVATE_KEY".data) value
          Except.ok ({ st with status := { st.status with walletConfigured := true },
                               file := some env' }, true)
        else Except.ok (st, false)
    else Except.ok (st, false)

/-- A prerequisite reported in the "Missing Requirements" checklist. -/
inductive MissingItem
  | wallet
  | rpc
  | keypairs
deriving DecidableEq

/-- Result of a gated operation: the new state, the checklist of missing
prerequisites printed when the gate fails, and whether execution proceeded
past the gate into the operation body. -/
structure GateOut where
  state : CliState
  missing : List MissingItem
  proceeded : Bool
deriving DecidableEq

/-- Embeds `handleCreateKeypairs` (lines 393-419): gated on wallet and RPC flags;
`numKeypairs` is the `parseInt` result (`none` = `NaN`).  A non-positive or
non-numeric count prints "Invalid number"; otherwise only the status flag is
flipped (real keypair creation is a stub). -/
def handleCreateKeypairs (st : CliState) (numKeypairs : Option ℤ) : GateOut :=
  if !(st.status.walletConfigured && st.status.rpcConfigured) then
    { state := st
      missing :=
        (if !st.status.walletConfigured then [MissingItem.wallet] else []) ++
        (if !st.status.rpcConfigured then [MissingItem.rpc] else [])
      proceeded := false }
  else
    match numKeypairs with
    | none => { state := st, missing := [], proceeded := true }
    | some n =>
      if n ≤ 0 then { state := st, missing := [], proceeded := true }
      else
        { state := { st with status := { st.status with keypairsCreated := true } }
          missing := [], proceeded := true }

/-- Embeds `handleCreatePoolBundle` (lines 421-456): gated on wallet, RPC and
keypairs flags.  The fee preview (lines 436-440) is display-only.  The flag
flips only on a `y`/`Y` confirmation (bundle creation itself is a stub). -/
def handleCreatePoolBundle (st : CliState) (_amount : ℚ) (proceed : Str) : GateOut :=
  if !(st.status.walletConfigured && st.status.rpcConfigured &&
       st.status.keypairsCreated) then
    { state := st
      missing :=
        (if !st.status.walletConfigured then [MissingItem.wallet] else []) ++
        (if !st.status.rpcConfigured then [MissingItem.rpc] else []) ++
        (if !st.status.keypairsCreated then [MissingItem.keypairs] else [])
      proceeded := false }
  else
    if jsToLower proceed = "y".data then
      { state := { st with status := { st.status with poolBundleReady := true } }
        missing := [], proceeded := true }
    else { state := st, missing := [], proceeded := true }

/-- One submenu choice of `handleManageWallets` (lines 249-279), with the
prompts that sub-operation consumes. -/
inductive WalletMenuEvent
  | view
  | add (walletKey : Str)
  | remove (walletIndex : ℤ)
  | promote (walletIndex : ℤ)
  | back
  | invalid
deriving DecidableEq

/-- Embeds `handleManageWallets` (lines 249-279): dispatch to the sub-operation.
There is no try/catch anywhere on this path, so a throw in `viewWallets`
(directly, or at the top of `removeWallet` / `setPrimaryWallet`)
propagates. -/
def handleManageWallets (st : CliState) (ev : WalletMenuEvent) : Except Unit CliState :=
  match ev with
  | .view =>
    match viewWallets st.file with
    | Except.error e => Except.error e
    | Except.ok _ => Except.ok st
  | .add walletKey => Except.ok { st with file := (addWallet st.file walletKey).1 }
  | .remove walletIndex =>
    match removeWallet st walletIndex with
    | Except.error e => Except.error e
    | Except.ok (st', _) => Except.ok st'
  | .promote walletIndex =>
    match setPrimaryWallet st walletIndex with
    | Except.error e => Except.error e
    | Except.ok (st', _) => Except.ok st'
  | .back => Except.ok st
  | .invalid => Except.ok st

/-- One main-menu choice (lines 488-517) together with the prompt inputs the
chosen operation consumes.  Choice `8` ends the loop and is modelled by the
end of the event list; any unrecognized choice is `invalidChoice`. -/
inductive MenuEvent
  | configureWallet (walletKey : Str)
  | configureRPC (rpcUrl : Str)
  | createKeypairs (numKeypairs : Option ℤ)
  | configureFees (minTipLamports tipPercent : ℤ) (feeRecipient : Str)
  | createPoolBundle (amount : ℚ) (proceed : Str)
  | viewConfiguration
  | manageWallets (sub : WalletMenuEvent)
  | invalidChoice
deriving DecidableEq

/-- One iteration of the `start` menu loop (lines 477-519): dispatch the
chosen handler.  Only the `manageWallets` path can propagate a throw; every
other handler catches (or cannot raise) its errors and returns. -/
def menuStep (st : CliState) (ev : MenuEvent) : Except Unit CliState :=
  match ev with
  | .configureWallet walletKey => Except.ok (handleConfigureWallet st walletKey).1
  | .configureRPC rpcUrl => Except.ok (handleConfigureRPC st rpcUrl).1
  | .createKeypairs numKeypairs => Except.ok (handleCreateKeypairs st numKeypairs).state
  | .configureFees minTip tipPercent feeRecipient =>
    Except.ok (handleConfigureFees st minTip tipPercent feeRecipient).1
  | .createPoolBundle amount proceed =>
    Except.ok (handleCreatePoolBundle st amount proceed).state
  | .viewConfiguration => Except.ok st
  | .manageWallets sub => handleManageWallets st sub
  | .invalidChoice => Except.ok st

/-- The `start` loop over a finite list of menu events; the first uncaught
throw aborts the loop. -/
def runMenu (st : CliState) : List MenuEvent → Except Unit CliState
  | [] => Except.ok st
  | ev :: evs =>
    match menuStep st ev with
    | Except.error e => Except.error e
    | Except.ok st' => runMenu st' evs

/-- Process termination status. -/
inductive ProcExit
  | code (n : ℕ)
deriving DecidableEq

/-- Embeds `main` (src/main.ts lines 3-13): construct the singleton (whose
constructor derives the status from the file), run the loop, and exit `0`;
any error escaping `start` is caught by `main`'s catch and the process exits
with code `1`. -/
def mainRun (file : Option Str) (evs : List MenuEvent) : ProcExit :=
  match runMenu { status := loadStatus file, file := file,
                  feeSettings := defaultFeeSettings } evs with
  | Except.ok _ => ProcExit.code 0
  | Except.error _ => ProcExit.code 1

/-- True exactly for the menu events whose execution reaches `viewWallets`. -/
def eventCallsViewWallets : MenuEvent → Bool
  | .manageWallets .view => true
  | .manageWallets (.remove _) => true
  | .manageWallets (.promote _) => true
  | _ => false

theorem jsStartsWith_iff {s p : Str} : jsStartsWith s p = true ↔ p <+: s := by
  simp [jsStartsWith]

theorem jsIncludes_iff {s pat : Str} : jsIncludes s pat = true ↔ pat <:+: s := by
  simp [jsIncludes]

theorem subOf_pre {l s : Str} (h : l <+: s) : l <:+: s := by
  obtain ⟨t, ht⟩ := h
  exact ⟨[], t, by simpa using ht⟩

theorem subOf_suf {l s : Str} (h : l <:+ s) : l <:+: s := by
  obtain ⟨t, ht⟩ := h
  exact ⟨t, [], by simpa using ht⟩

theorem splitLines_ne_nil (s : Str) : splitLines s ≠ [] := by
  induction s with
  | nil => simp [splitLines]
  | cons c rest ih =>
    simp only [splitLines]
    split
    · simp
    · split
      · simp
      · simp

theorem splitLines_append (a b : Str) :
    splitLines (a ++ '\n' :: b) = splitLines a ++ splitLines b := by
  induction a with
  | nil => simp [splitLines]
  | cons c rest ih =>
    by_cases hc : c = '\n'
    · subst hc
      show splitLines ('\n' :: (rest ++ '\n' :: b)) = _
      rw [splitLines, if_pos rfl, ih]
      rw [show splitLines ('\n' :: rest) = [] :: splitLines rest from by
        rw [splitLines, if_pos rfl]]
      rfl
    · show splitLines (c :: (rest ++ '\n' :: b)) = _
      rw [splitLines, if_neg hc, ih]
      obtain ⟨l, ls, hls⟩ : ∃ l ls, splitLines rest = l :: ls := by
        cases h : splitLines rest with
        | nil => exact absurd h (splitLines_ne_nil rest)
        | cons l ls => exact ⟨l, ls, rfl⟩
      rw [hls]
      rw [show splitLines (c :: rest) = (c :: l) :: ls from by
        rw [splitLines, if_neg hc, hls]]
      rfl

theorem splitLines_no_newline {b : Str} (h : '\n' ∉ b) : splitLines b = [b] := by
  induction b with
  | nil => rfl
  | cons c rest ih =>
    have hc : c ≠ '\n' := fun hc => h (hc ▸ List.mem_cons_self c rest)
    have hrest : '\n' ∉ rest := fun hr => h (List.mem_cons_of_mem c hr)
    rw [splitLines, if_neg hc, ih hrest]

theorem findSub_skip {pat : Str} (a rest : Str)
    (h : ∀ s, s <:+ a → ¬ (pat <+: s ++ rest)) :
    findSub pat (a ++ rest) = (findSub pat rest).map (· + a.length) := by
  induction a with
  | nil =>
    simp
  | cons c a' ih =>
    have hnp : ¬ (pat <+: c :: (a' ++ rest)) := by
      have h2 := h (c :: a') (List.suffix_refl _)
      rw [List.cons_append] at h2
      exact h2
    have hcond : ¬ (jsStartsWith (c :: (a' ++ rest)) pat = true) :=
      fun hb => hnp (jsStartsWith_iff.mp hb)
    rw [List.cons_append, findSub, if_neg hcond,
      ih (fun s hs => h s (hs.trans (List.suffix_cons c a'))), Option.map_map]
    cases findSub pat rest with
    | none => rfl
    | some v =>
      simp [Function.comp]
      try omega

theorem not_prefix_boundary {pat env : Str} (hnl : '\n' ∉ pat)
    (hninf : ¬ (pat <:+: env)) :
    ∀ s z, s <:+ env → ¬ (pat <+: s ++ '\n' :: z) := by
  intro s z hs hp
  by_cases hlen : pat.length ≤ s.length
  · have h1 : pat <+: s :=
      List.prefix_of_prefix_length_le hp (List.prefix_append s _) hlen
    exact hninf ((subOf_pre h1).trans (subOf_suf hs))
  · push_neg at hlen
    have hx : s <+: pat :=
      List.prefix_of_prefix_length_le (List.prefix_append s _) hp (le_of_lt hlen)
    obtain ⟨t, ht⟩ := hx
    cases t with
    | nil =>
      rw [List.append_nil] at ht
      rw [ht] at hlen
      exact lt_irrefl _ hlen
    | cons c t' =>
      have h2 : c :: t' <+: '\n' :: z := by
        have h3 : s ++ c :: t' <+: s ++ '\n' :: z := ht ▸ hp
        exact (List.prefix_append_right_inj s).mp h3
      obtain ⟨w, hw⟩ := h2
      rw [List.cons_append] at hw
      injection hw with hw1 _
      apply hnl
      rw [← ht, hw1]
      exact List.mem_append_right s (List.mem_cons_self _ _)

theorem upsertEnv_not_present {env key v : Str} (h : ¬ ((key ++ ['=']) <:+: env)) :
    upsertEnv env key v = env ++ '\n' :: (key ++ '=' :: v) := by
  rw [upsertEnv, if_neg (fun hb => h (jsIncludes_iff.mp hb))]

theorem key_eq_no_newline {key : Str} (hknl : '\n' ∉ key) : '\n' ∉ key ++ ['='] := by
  intro hmem
  rcases List.mem_append.mp hmem with h1 | h2
  · exact hknl h1
  · simp at h2

theorem findSub_at_boundary {pat env B : Str} (hnl : '\n' ∉ pat)
    (hne : pat ≠ []) (hnotin : ¬ (pat <:+: env)) (hB : pat <+: B) :
    findSub pat (env ++ '\n' :: B) = some (env.length + 1) := by
  rw [findSub_skip env ('\n' :: B)
    (fun s hs => not_prefix_boundary hnl hnotin s B hs)]
  have hBne : B ≠ [] := by
    intro h0
    rw [h0] at hB
    exact hne (List.prefix_nil.mp hB)
  obtain ⟨b, B', hBeq⟩ : ∃ b B', B = b :: B' := by
    cases B with
    | nil => exact absurd rfl hBne
    | cons b B' => exact ⟨b, B', rfl⟩
  have hnp : ¬ (pat <+: '\n' :: B) := by
    intro hp
    rcases List.prefix_cons_iff.mp hp with h0 | ⟨t, hpt, _⟩
    · exact hne h0
    · exact hnl (hpt ▸ List.mem_cons_self '\n' t)
  rw [findSub, if_neg (fun hb => hnp (jsStartsWith_iff.mp hb))]
  rw [hBeq, findSub, if_pos (jsStartsWith_iff.mpr (hBeq ▸ hB))]
  simp [Nat.add_comm]

theorem getSub_no_pattern (matched before after : Str) :
    ∀ repl : Str, hasDollarPattern repl = false →
      getSubstitution matched before after repl = repl
  | [] => fun _ => rfl
  | [c] => fun _ => rfl
  | c :: d :: rest => fun h => by
    rw [hasDollarPattern] at h
    rcases Bool.or_eq_false_iff.mp h with ⟨h1, h2⟩
    rw [getSubstitution]
    by_cases hc : c = '$'
    · subst hc
      have hd : isReplEscape d = false := by simpa using h1
      have hd1 : ¬ (d = '$') := by
        intro he
        rw [he] at hd
        simp [isReplEscape] at hd
      have hd2 : ¬ (d = '&') := by
        intro he
        rw [he] at hd
        simp [isReplEscape] at hd
      have hd3 : ¬ (d = Char.ofNat 96) := by
        intro he
        rw [he] at hd
        simp [isReplEscape] at hd
      have hd4 : ¬ (d = Char.ofNat 39) := by
        intro he
        rw [he] at hd
        simp [isReplEscape] at hd
      rw [if_pos rfl, if_neg hd1, if_neg hd2, if_neg hd3, if_neg hd4,
        getSub_no_pattern matched before after (d :: rest) h2]
    · rw [if_neg hc, getSub_no_pattern matched before after (d :: rest) h2]

theorem hasDollarPattern_key (key v : Str) (hk : '$' ∉ key)
    (hv : hasDollarPattern v = false) :
    hasDollarPattern (key ++ '=' :: v) = false := by
  induction key with
  | nil =>
    rw [List.nil_append]
    cases v with
    | nil => rfl
    | cons d v' =>
      rw [hasDollarPattern]
      have h1 : (('=' == '$') && isReplEscape d) = false := by
        simp
      rw [h1, Bool.false_or]
      exact hv
  | cons c key' ih =>
    have hc : c ≠ '$' := fun h => hk (h ▸ List.mem_cons_self c key')
    have hk' : '$' ∉ key' := fun h => hk (List.mem_cons_of_mem c h)
    rw [List.cons_append]
    cases he : key' ++ '=' :: v with
    | nil => exact absurd he (by simp)
    | cons e r =>
      rw [hasDollarPattern]
      have h1 : ((c == '$') && isReplEscape e) = false := by
        rw [beq_eq_false_iff_ne.mpr hc, Bool.false_and]
      rw [h1, Bool.false_or, ← he]
      exact ih hk'

theorem takeWhile_no_newline {b : Str} (h : '\n' ∉ b) :
    b.takeWhile (fun c => !(c == '\n')) = b := by
  rw [List.takeWhile_eq_self_iff]
  intro x hx
  simp only [Bool.not_eq_true', beq_eq_false_iff_ne, ne_eq]
  exact fun hx2 => h (hx2 ▸ hx)

theorem dropWhile_no_newline {b : Str} (h : '\n' ∉ b) :
    b.dropWhile (fun c => !(c == '\n')) = [] := by
  rw [List.dropWhile_eq_nil_iff]
  intro x hx
  simp only [Bool.not_eq_true', beq_eq_false_iff_ne, ne_eq]
  exact fun hx2 => h (hx2 ▸ hx)

theorem upsertEnv_after_append {env key v1 v2 : Str}
    (hnot : ¬ ((key ++ ['=']) <:+: env)) (hknl : '\n' ∉ key) (hv1 : '\n' ∉ v1)
    (hkd : '$' ∉ key) (hv2d : hasDollarPattern v2 = false) :
    upsertEnv (env ++ '\n' :: (key ++ '=' :: v1)) key v2
      = env ++ '\n' :: (key ++ '=' :: v2) := by
  have hpat_nl : '\n' ∉ key ++ ['='] := key_eq_no_newline hknl
  have hpat_ne : key ++ ['='] ≠ [] := by simp
  have hincl : (key ++ ['=']) <:+: env ++ '\n' :: (key ++ '=' :: v1) := by
    have hpfx : key ++ ['='] <+: key ++ '=' :: v1 := ⟨v1, by simp⟩
    have hsfx : key ++ '=' :: v1 <:+ env ++ '\n' :: (key ++ '=' :: v1) :=
      ⟨env ++ ['\n'], by simp⟩
    exact (subOf_pre hpfx).trans (subOf_suf hsfx)
  rw [upsertEnv, if_pos (jsIncludes_iff.mpr hincl)]
  have hfind : findSub (key ++ ['=']) (env ++ '\n' :: (key ++ '=' :: v1))
      = some (env.length + 1) :=
    findSub_at_boundary hpat_nl hpat_ne hnot ⟨v1, by simp⟩
  rw [replaceFirst, hfind]
  dsimp only
  have hsplit : env ++ '\n' :: (key ++ '=' :: v1)
      = (env ++ ['\n']) ++ ((key ++ ['=']) ++ v1) := by simp
  have htake : (env ++ '\n' :: (key ++ '=' :: v1)).take (env.length + 1)
      = env ++ ['\n'] := by
    rw [hsplit, show env.length + 1 = (env ++ ['\n']).length from by simp,
      List.take_left]
  have hdrop : (env ++ '\n' :: (key ++ '=' :: v1)).drop
      (env.length + 1 + (key ++ ['=']).length) = v1 := by
    rw [hsplit,
      show (env ++ ['\n']) ++ ((key ++ ['=']) ++ v1)
        = ((env ++ ['\n']) ++ (key ++ ['='])) ++ v1 from by simp,
      show env.length + 1 + (key ++ ['=']).length
        = ((env ++ ['\n']) ++ (key ++ ['='])).length from by
          simp only [List.length_append, List.length_cons, List.length_nil]
          try omega,
      List.drop_left]
  rw [htake, hdrop, takeWhile_no_newline hv1, dropWhile_no_newline hv1,
    getSub_no_pattern _ _ _ _ (hasDollarPattern_key key v2 hkd hv2d)]
  simp

theorem splitLines_head_pre :
    ∀ (s : Str) {hd : Str} {tl : List Str}, splitLines s = hd :: tl → hd <+: s := by
  intro s
  induction s with
  | nil =>
    intro hd tl h
    simp only [splitLines, List.cons.injEq] at h
    simp [h.1]
  | cons c rest ih =>
    intro hd tl h
    by_cases hc : c = '\n'
    · subst hc
      rw [splitLines, if_pos rfl] at h
      cases h
      simp
    · rw [splitLines, if_neg hc] at h
      obtain ⟨hd', tl', hsp⟩ : ∃ hd' tl', splitLines rest = hd' :: tl' := by
        cases hs : splitLines rest with
        | nil => exact absurd hs (splitLines_ne_nil rest)
        | cons x y => exact ⟨x, y, rfl⟩
      rw [hsp] at h
      cases h
      obtain ⟨t, ht⟩ := ih hsp
      exact ⟨t, by rw [List.cons_append, ht]⟩

theorem mem_splitLines_sub {s l : Str} (h : l ∈ splitLines s) : l <:+: s := by
  induction s generalizing l with
  | nil =>
    simp only [splitLines, List.mem_singleton] at h
    simp [h]
  | cons c rest ih =>
    by_cases hc : c = '\n'
    · subst hc
      rw [splitLines, if_pos rfl] at h
      rcases List.mem_cons.mp h with h0 | h1
      · simp [h0]
      · exact (ih h1).trans (List.infix_cons (List.infix_refl rest))
    · obtain ⟨hd, tl, hsp⟩ : ∃ hd tl, splitLines rest = hd :: tl := by
        cases hs : splitLines rest with
        | nil => exact absurd hs (splitLines_ne_nil rest)
        | cons x y => exact ⟨x, y, rfl⟩
      have hstep : splitLines (c :: rest) = (c :: hd) :: tl := by
        rw [splitLines, if_neg hc, hsp]
      rw [hstep] at h
      rcases List.mem_cons.mp h with h0 | h1
      · subst h0
        obtain ⟨t, ht⟩ := splitLines_head_pre rest hsp
        exact subOf_pre (show c :: hd <+: c :: rest from ⟨t, by rw [List.cons_append, ht]⟩)
      · have hmem : l ∈ splitLines rest := hsp ▸ List.mem_cons_of_mem hd h1
        exact (ih hmem).trans (List.infix_cons (List.infix_refl rest))

theorem calcPreview_exact (m p a : ℕ) (r : Str) :
    (calculateTransactionPreview ⟨(m : ℚ), (p : ℚ), r⟩ (a : ℚ)).tipAmount
        = ((max m ((a * p) / 100) : ℕ) : ℚ) ∧
    (calculateTransactionPreview ⟨(m : ℚ), (p : ℚ), r⟩ (a : ℚ)).totalFee
        = 5000 + ((max m ((a * p) / 100) : ℕ) : ℚ) := by
  have hfloor : ⌊(a : ℚ) * ((p : ℚ) / 100)⌋ = (((a * p) / 100 : ℕ) : ℤ) := by
    have h1 : (a : ℚ) * ((p : ℚ) / 100) = ((a * p : ℕ) : ℚ) / ((100 : ℕ) : ℚ) := by
      push_cast
      ring
    rw [h1]
    exact_mod_cast Rat.floor_natCast_div_natCast (a * p) 100
  have htip : (calculateTransactionPreview ⟨(m : ℚ), (p : ℚ), r⟩ (a : ℚ)).tipAmount
      = max (m : ℚ) ((⌊(a : ℚ) * ((p : ℚ) / 100)⌋ : ℤ) : ℚ) := rfl
  have htot : (calculateTransactionPreview ⟨(m : ℚ), (p : ℚ), r⟩ (a : ℚ)).totalFee
      = 5000 + max (m : ℚ) ((⌊(a : ℚ) * ((p : ℚ) / 100)⌋ : ℤ) : ℚ) := rfl
  constructor
  · rw [htip, hfloor]
    push_cast
    rfl
  · rw [htot, hfloor]
    push_cast
    rfl

/-- C1: For every fee configuration with minTipLamports `m` and tipPercent
`p` in `[0,100]`, and every amount `a ≥ 0` in lamports,
`calculateTransactionPreview` returns `tipAmount = max(m, ⌊a·p/100⌋)` and
`totalFee = 5000 + tipAmount`; in particular with `m = 10000`, `p = 50`,
`a = 1,000,000,000` it returns `tipAmount = 500,000,000` and
`totalFee = 500,005,000`.  (JavaScript number arithmetic is idealized as
exact rational arithmetic; the quantities in the claim are naturals, so the
floor is natural division.) -/
theorem claim_C1_fee_preview :
    (∀ (m p a : ℕ) (r : Str), p ≤ 100 →
      (calculateTransactionPreview ⟨(m : ℚ), (p : ℚ), r⟩ (a : ℚ)).tipAmount
          = ((max m ((a * p) / 100) : ℕ) : ℚ) ∧
      (calculateTransactionPreview ⟨(m : ℚ), (p : ℚ), r⟩ (a : ℚ)).totalFee
          = 5000 + ((max m ((a * p) / 100) : ℕ) : ℚ)) ∧
    (calculateTransactionPreview ⟨(10000 : ℚ), 50, []⟩ 1000000000).tipAmount
        = 500000000 ∧
    (calculateTransactionPreview ⟨(10000 : ℚ), 50, []⟩ 1000000000).totalFee
        = 500005000 := by
  refine ⟨fun m p a r _ => calcPreview_exact m p a r, ?_, ?_⟩
  · show max (10000 : ℚ) ((⌊(1000000000 : ℚ) * ((50 : ℚ) / 100)⌋ : ℤ) : ℚ)
        = 500000000
    norm_num
  · show (5000 : ℚ) + max (10000 : ℚ)
        ((⌊(1000000000 : ℚ) * ((50 : ℚ) / 100)⌋ : ℤ) : ℚ) = 500005000
    norm_num

/-- Witness for C1 at `m = 3`, `p = 30`, `a = 50`:
`tip = max 3 ⌊50·30/100⌋ = max 3 15 = 15`. -/
theorem claim_C1_fee_preview_witness :
    (calculateTransactionPreview ⟨((3 : ℕ) : ℚ), ((30 : ℕ) : ℚ), []⟩ ((50 : ℕ) : ℚ)).tipAmount
      = ((max 3 ((50 * 30) / 100) : ℕ) : ℚ) :=
  (claim_C1_fee_preview.1 3 30 50 [] (by norm_num)).1

/-- C2 (amended): upserting a key absent from the configuration file twice,
with single-line values `v1` then `v2`, leaves exactly one line whose key is
that key, and its value is `v2` — provided `v2` contains no ECMAScript
replacement pattern (a `$` immediately followed by `$`, `&`, a backtick or
an apostrophe).  Such a pattern is expanded by `String.prototype.replace`
during the second upsert (see the counterexample), so the frozen claim fails
there.  The other hypotheses are the code's own `includes` check and a
single-line key with no `'='` or `'$'` — true of every recognized key. -/
theorem claim_C2_upsert_twice_amended (env key v1 v2 : Str)
    (hnot : jsIncludes env (key ++ ['=']) = false)
    (hknl : '\n' ∉ key) (hkeq : '=' ∉ key) (hkd : '$' ∉ key)
    (hv1 : '\n' ∉ v1) (hv2 : '\n' ∉ v2)
    (hv2d : hasDollarPattern v2 = false) :
    (splitLines (upsertEnv (upsertEnv env key v1) key v2)).filter
      (fun l => lineKey l == some key) = [key ++ '=' :: v2] := by
  have hninf : ¬ ((key ++ ['=']) <:+: env) := by
    intro hi
    rw [← jsIncludes_iff, hnot] at hi
    cases hi
  rw [upsertEnv_not_present hninf, upsertEnv_after_append hninf hknl hv1 hkd hv2d]
  have hlineN : '\n' ∉ key ++ '=' :: v2 := by
    intro hmem
    rcases List.mem_append.mp hmem with h1 | h2
    · exact hknl h1
    · rcases List.mem_cons.mp h2 with h3 | h4
      · simp at h3
      · exact hv2 h4
  rw [splitLines_append, splitLines_no_newline hlineN, List.filter_append]
  have h1 : (splitLines env).filter (fun l => lineKey l == some key) = [] := by
    rw [List.filter_eq_nil_iff]
    intro l hl hbeq
    have hlk : lineKey l = some key := eq_of_beq hbeq
    exact hninf ((subOf_pre (lineKey_some_imp hlk)).trans (mem_splitLines_sub hl))
  have h2 : (lineKey (key ++ '=' :: v2) == some key) = true := by
    rw [lineKey_key_line hkeq]
    exact beq_self_eq_true _
  rw [h1, List.nil_append, List.filter_cons, if_pos h2]
  rfl

/-- C2 counterexample: the second value `$&aaaaaaaabbbbbbbbccccccccdddddddd`
(34 characters, a legitimate single-line prompt input that passes the
32-character checks) makes `String.prototype.replace` expand `$&` to the
matched text `WALLET_PRIVATE_KEY=<v1>` during the second upsert: the single
stored line's value is the expansion, not `v2`, so the claim as frozen is
false at this input. -/
theorem claim_C2_upsert_twice_counterexample :
    (splitLines (upsertEnv (upsertEnv ("RPC_URL=x".data)
        ("WALLET_PRIVATE_KEY".data) ("eeeeeeeeffffffffgggggggghhhhhhhh".data))
        ("WALLET_PRIVATE_KEY".data)
        ('$' :: '&' :: "aaaaaaaabbbbbbbbccccccccdddddddd".data))).filter
      (fun l => lineKey l == some ("WALLET_PRIVATE_KEY".data))
      = ["WALLET_PRIVATE_KEY=WALLET_PRIVATE_KEY=eeeeeeeeffffffffgggggggghhhhhhhhaaaaaaaabbbbbbbbccccccccdddddddd".data] ∧
    ("WALLET_PRIVATE_KEY=WALLET_PRIVATE_KEY=eeeeeeeeffffffffgggggggghhhhhhhhaaaaaaaabbbbbbbbccccccccdddddddd".data : Str)
      ≠ "WALLET_PRIVATE_KEY".data ++ '=' :: ('$' :: '&' :: "aaaaaaaabbbbbbbbccccccccdddddddd".data) := by
  exact ⟨by rfl, by decide⟩

/-- Witness for the amended C2: a file holding only an RPC line, upserting
`WALLET_PRIVATE_KEY` with two plain 32-character values. -/
theorem claim_C2_upsert_twice_amended_witness :
    (splitLines (upsertEnv (upsertEnv ("RPC_URL=localhost".data)
        ("WALLET_PRIVATE_KEY".data) ("eeeeeeeeffffffffgggggggghhhhhhhh".data))
        ("WALLET_PRIVATE_KEY".data)
        ("aaaaaaaabbbbbbbbccccccccdddddddd".data))).filter
      (fun l => lineKey l == some ("WALLET_PRIVATE_KEY".data))
      = ["WALLET_PRIVATE_KEY=aaaaaaaabbbbbbbbccccccccdddddddd".data] :=
  claim_C2_upsert_twice_amended ("RPC_URL=localhost".data)
    ("WALLET_PRIVATE_KEY".data) ("eeeeeeeeffffffffgggggggghhhhhhhh".data)
    ("aaaaaaaabbbbbbbbccccccccdddddddd".data) (by decide) (by decide)
    (by decide) (by decide) (by decide) (by decide) (by decide)

theorem getD_eq_some {l : List Str} {j : ℕ} (hj : j < l.length) :
    l[j]? = some (l.getD j []) := by
  rw [List.getD_eq_getElem?_getD, List.getElem?_eq_getElem hj]
  rfl

/-- C3 (amended): when every `WALLET_` line contains `'='` (so the initial
listing in `removeWallet` does not throw) and no other line of the file is
equal, as a string, to the `k`-th `WALLET_`-prefixed line, `removeWallet`
with input `k` produces exactly the file the claim describes: the `k`-th
wallet line removed, every other line unchanged and in order
(`removeKthWalletSpec`). -/
theorem claim_C3_remove_wallet_amended (st : CliState) (envContent : Str) (k : ℕ)
    (hfile : st.file = some envContent)
    (hview : viewWallets (some envContent) = Except.ok ())
    (hk1 : 1 ≤ k)
    (hk2 : k ≤ ((splitLines envContent).filter
        (fun l => jsStartsWith l ("WALLET_".data))).length)
    (hcount : (splitLines envContent).count
        (((splitLines envContent).filter
          (fun l => jsStartsWith l ("WALLET_".data))).getD (k - 1) []) = 1) :
    removeWallet st (k : ℤ)
      = Except.ok ({ st with file := removeKthWalletSpec envContent k }, true) := by
  have hkz : (0 : ℤ) < (k : ℤ) := by exact_mod_cast hk1
  have htn : ((k : ℤ)).toNat = k := Int.toNat_natCast k
  have hj : k - 1 < ((splitLines envContent).filter
      (fun l => jsStartsWith l ("WALLET_".data))).length := by omega
  obtain ⟨i, hidx, hget⟩ := nthWalletIdx_get (splitLines envContent) (k - 1) hj
  have hsome : ((splitLines envContent).filter
      (fun l => jsStartsWith l ("WALLET_".data)))[k-1]?
      = some (((splitLines envContent).filter
        (fun l => jsStartsWith l ("WALLET_".data))).getD (k - 1) []) :=
    getD_eq_some hj
  have hgl : (splitLines envContent)[i]? = some (((splitLines envContent).filter
      (fun l => jsStartsWith l ("WALLET_".data))).getD (k - 1) []) := by
    rw [hget, hsome]
  have hfe : (splitLines envContent).filter
      (fun l => !(l == ((splitLines envContent).filter
        (fun l => jsStartsWith l ("WALLET_".data))).getD (k - 1) []))
      = (splitLines envContent).eraseIdx i := by
    rw [filter_ne_eq_erase _ _ (le_of_eq hcount),
      eraseIdx_eq_erase_of_count_one _ _ i hcount hgl]
  have hspec : removeKthWalletSpec envContent k
      = some (joinLines ((splitLines envContent).eraseIdx i)) := by
    rw [removeKthWalletSpec, hidx]
  rw [removeWallet, hfile, hview]
  simp only [if_pos hkz, htn, if_pos hk2]
  rw [hfe, hspec]

/-- A CLI state with default status and fee settings and the given file:
used to state concrete counterexamples and witnesses. -/
def mkState (file : Option Str) : CliState :=
  { status := initialStatus, file := file, feeSettings := defaultFeeSettings }

/-- C3 counterexample: a file whose two lines are both
`WALLET_1_PRIVATE_KEY=k` (string-identical).  Removing wallet 1 empties the
file — the code filters out every line equal to the selected one — while the
claim as stated (`removeKthWalletSpec`) keeps the second copy. -/
theorem claim_C3_remove_wallet_counterexample :
    removeWallet (mkState (some ("WALLET_1_PRIVATE_KEY=k\nWALLET_1_PRIVATE_KEY=k".data))) 1
      = Except.ok (mkState (some []), true) ∧
    removeKthWalletSpec ("WALLET_1_PRIVATE_KEY=k\nWALLET_1_PRIVATE_KEY=k".data) 1
      = some ("WALLET_1_PRIVATE_KEY=k".data) ∧
    some ([] : Str) ≠ some ("WALLET_1_PRIVATE_KEY=k".data) := by
  refine ⟨by rfl, by rfl, by decide⟩

/-- Witness for the amended C3: two distinct wallet lines, removing index 1
leaves exactly the second. -/
theorem claim_C3_remove_wallet_amended_witness :
    removeWallet (mkState (some ("WALLET_1_PRIVATE_KEY=a\nWALLET_2_PRIVATE_KEY=b".data))) ((1 : ℕ) : ℤ)
      = Except.ok (mkState (removeKthWalletSpec
          ("WALLET_1_PRIVATE_KEY=a\nWALLET_2_PRIVATE_KEY=b".data) 1), true) :=
  claim_C3_remove_wallet_amended _ _ 1 rfl (by rfl) (by decide) (by decide)
    (by decide)

theorem removeWallet_isOk (st : CliState) (k : ℤ)
    (hv : viewWallets st.file = Except.ok ()) :
    ∃ r, removeWallet st k = Except.ok r := by
  rw [removeWallet, hv]
  show ∃ r, (if 0 < k then _ else _) = _
  split
  · cases st.file with
    | none => exact ⟨_, rfl⟩
    | some env =>
      dsimp only
      split
      · exact ⟨_, rfl⟩
      · exact ⟨_, rfl⟩
  · exact ⟨_, rfl⟩

theorem setPrimaryWallet_isOk (st : CliState) (k : ℤ)
    (hv : viewWallets st.file = Except.ok ()) :
    ∃ r, setPrimaryWallet st k = Except.ok r := by
  rw [setPrimaryWallet, hv]
  show ∃ r, (if 0 < k then _ else _) = _
  split
  · cases st.file with
    | none => exact ⟨_, rfl⟩
    | some env =>
      dsimp only
      split
      · exact ⟨_, rfl⟩
      · exact ⟨_, rfl⟩
  · exact ⟨_, rfl⟩

theorem menuStep_error_iff (st : CliState) (ev : MenuEvent) :
    menuStep st ev = Except.error () ↔
      eventCallsViewWallets ev = true ∧ viewWallets st.file = Except.error () := by
  cases ev with
  | configureWallet key => simp [menuStep, eventCallsViewWallets]
  | configureRPC url => simp [menuStep, eventCallsViewWallets]
  | createKeypairs n => simp [menuStep, eventCallsViewWallets]
  | configureFees a b c => simp [menuStep, eventCallsViewWallets]
  | createPoolBundle a b => simp [menuStep, eventCallsViewWallets]
  | viewConfiguration => simp [menuStep, eventCallsViewWallets]
  | invalidChoice => simp [menuStep, eventCallsViewWallets]
  | manageWallets sub =>
    cases sub with
    | view =>
      cases hv : viewWallets st.file with
      | ok u =>
        cases u
        simp [menuStep, handleManageWallets, hv, eventCallsViewWallets]
      | error e =>
        cases e
        simp [menuStep, handleManageWallets, hv, eventCallsViewWallets]
    | add key => simp [menuStep, handleManageWallets, eventCallsViewWallets]
    | back => simp [menuStep, handleManageWallets, eventCallsViewWallets]
    | invalid => simp [menuStep, handleManageWallets, eventCallsViewWallets]
    | remove k =>
      cases hv : viewWallets st.file with
      | ok u =>
        cases u
        obtain ⟨r, hr⟩ := removeWallet_isOk st k hv
        obtain ⟨st', b⟩ := r
        simp [menuStep, handleManageWallets, hr, hv, eventCallsViewWallets]
      | error e =>
        cases e
        have hrw : removeWallet st k = Except.error () := by rw [removeWallet, hv]
        simp [menuStep, handleManageWallets, hrw, hv, eventCallsViewWallets]
    | promote k =>
      cases hv : viewWallets st.file with
      | ok u =>
        cases u
        obtain ⟨r, hr⟩ := setPrimaryWallet_isOk st k hv
        obtain ⟨st', b⟩ := r
        simp [menuStep, handleManageWallets, hr, hv, eventCallsViewWallets]
      | error e =>
        cases e
        have hrw : setPrimaryWallet st k = Except.error () := by
          rw [setPrimaryWallet, hv]
        simp [menuStep, handleManageWallets, hrw, hv, eventCallsViewWallets]

theorem runMenu_ok_of_no_view (evs : List MenuEvent) :
    ∀ st : CliState, (∀ ev ∈ evs, eventCallsViewWallets ev = false) →
      ∃ st', runMenu st evs = Except.ok st' := by
  induction evs with
  | nil => exact fun st _ => ⟨st, rfl⟩
  | cons ev evs ih =>
    intro st h
    have hev : eventCallsViewWallets ev = false := h ev (List.mem_cons_self ev evs)
    cases hs : menuStep st ev with
    | error e =>
      cases e
      have := (menuStep_error_iff st ev).mp hs
      rw [hev] at this
      cases this.1
    | ok st1 =>
      obtain ⟨st', hst'⟩ := ih st1 (fun e he => h e (List.mem_cons_of_mem ev he))
      refine ⟨st', ?_⟩
      rw [runMenu, hs]
      exact hst'

/-- C4 (amended): errors are caught at the menu-handler boundary for every
operation except the wallet-management sub-operations that call
`viewWallets` (view / remove / promote), which have no try/catch on their
path: a `menuStep` fails exactly when such an event runs against a file with
a `WALLET_`-prefixed line lacking `'='`, and when no such sub-operation is
invoked the whole loop terminates normally with exit code 0. -/
theorem claim_C4_error_boundary_amended :
    (∀ (st : CliState) (ev : MenuEvent),
      menuStep st ev = Except.error () ↔
        eventCallsViewWallets ev = true ∧ viewWallets st.file = Except.error ()) ∧
    (∀ (file : Option Str) (evs : List MenuEvent),
      (∀ ev ∈ evs, eventCallsViewWallets ev = false) →
        mainRun file evs = ProcExit.code 0) := by
  refine ⟨menuStep_error_iff, ?_⟩
  intro file evs h
  obtain ⟨st', hst'⟩ := runMenu_ok_of_no_view evs _ h
  rw [mainRun, hst']

/-- C4 counterexample: the file `WALLET_BROKEN` (a `WALLET_` line with no
`'='`) is menu-reachable input for the wallet-view operation (menu 7 then 1);
the `TypeError` thrown in `viewWallets` is not caught at the menu-handler
boundary and the process exits with code 1 — not a startup failure. -/
theorem claim_C4_error_boundary_counterexample :
    menuStep (mkState (some ("WALLET_BROKEN".data)))
        (MenuEvent.manageWallets WalletMenuEvent.view) = Except.error () ∧
    mainRun (some ("WALLET_BROKEN".data))
        [MenuEvent.manageWallets WalletMenuEvent.view] = ProcExit.code 1 :=
  ⟨rfl, rfl⟩

/-- Witness for the amended C4: a session that only configures the RPC URL
runs to completion and exits 0. -/
theorem claim_C4_error_boundary_amended_witness :
    mainRun none [MenuEvent.configureRPC ("http://localhost:8899".data)]
      = ProcExit.code 0 :=
  claim_C4_error_boundary_amended.2 none
    [MenuEvent.configureRPC ("http://localhost:8899".data)]
    (by
      intro ev hev
      rw [List.mem_singleton] at hev
      subst hev
      rfl)

/-- C5: create-keypairs proceeds past its gate exactly when wallet and RPC
are configured, and create-pool-bundle exactly when wallet, RPC and keypairs
all are; when the gate fails, the state (status flags and file) is unchanged
and the reported checklist contains precisely the missing prerequisites. -/
theorem claim_C5_gated_operations :
    (∀ (st : CliState) (n : Option ℤ),
      (handleCreateKeypairs st n).proceeded
          = (st.status.walletConfigured && st.status.rpcConfigured) ∧
      ((st.status.walletConfigured && st.status.rpcConfigured) = false →
        (handleCreateKeypairs st n).state = st ∧
        (MissingItem.wallet ∈ (handleCreateKeypairs st n).missing ↔
          st.status.walletConfigured = false) ∧
        (MissingItem.rpc ∈ (handleCreateKeypairs st n).missing ↔
          st.status.rpcConfigured = false)) ∧
      ((st.status.walletConfigured && st.status.rpcConfigured) = true →
        (handleCreateKeypairs st n).missing = [])) ∧
    (∀ (st : CliState) (amount : ℚ) (proceed : Str),
      (handleCreatePoolBundle st amount proceed).proceeded
          = (st.status.walletConfigured && st.status.rpcConfigured &&
             st.status.keypairsCreated) ∧
      ((st.status.walletConfigured && st.status.rpcConfigured &&
          st.status.keypairsCreated) = false →
        (handleCreatePoolBundle st amount proceed).state = st ∧
        (MissingItem.wallet ∈ (handleCreatePoolBundle st amount proceed).missing ↔
          st.status.walletConfigured = false) ∧
        (MissingItem.rpc ∈ (handleCreatePoolBundle st amount proceed).missing ↔
          st.status.rpcConfigured = false) ∧
        (MissingItem.keypairs ∈ (handleCreatePoolBundle st amount proceed).missing ↔
          st.status.keypairsCreated = false)) ∧
      ((st.status.walletConfigured && st.status.rpcConfigured &&
          st.status.keypairsCreated) = true →
        (handleCreatePoolBundle st amount proceed).missing = [])) := by
  constructor
  · intro st n
    cases hw : st.status.walletConfigured <;> cases hr : st.status.rpcConfigured
    · simp [handleCreateKeypairs, hw, hr]
    · simp [handleCreateKeypairs, hw, hr]
    · simp [handleCreateKeypairs, hw, hr]
    · cases n with
      | none => simp [handleCreateKeypairs, hw, hr]
      | some v =>
        by_cases hv : v ≤ 0
        · simp [handleCreateKeypairs, hw, hr, hv]
        · simp [handleCreateKeypairs, hw, hr, hv]
  · intro st amount proceed
    cases hw : st.status.walletConfigured <;> cases hr : st.status.rpcConfigured <;>
      cases hk : st.status.keypairsCreated
    · simp [handleCreatePoolBundle, hw, hr, hk]
    · simp [handleCreatePoolBundle, hw, hr, hk]
    · simp [handleCreatePoolBundle, hw, hr, hk]
    · simp [handleCreatePoolBundle, hw, hr, hk]
    · simp [handleCreatePoolBundle, hw, hr, hk]
    · simp [handleCreatePoolBundle, hw, hr, hk]
    · simp [handleCreatePoolBundle, hw, hr, hk]
    · by_cases hy : jsToLower proceed = "y".data
      · simp [handleCreatePoolBundle, hw, hr, hk, hy]
      · simp [handleCreatePoolBundle, hw, hr, hk, hy]

/-- Witness for C5: with nothing configured, create-keypairs does not
proceed, leaves the state unchanged, and reports wallet and RPC missing. -/
theorem claim_C5_gated_operations_witness :
    (handleCreateKeypairs (mkState none) none).state = mkState none ∧
    (MissingItem.wallet ∈ (handleCreateKeypairs (mkState none) none).missing ↔
      (mkState none).status.walletConfigured = false) ∧
    (MissingItem.rpc ∈ (handleCreateKeypairs (mkState none) none).missing ↔
      (mkState none).status.rpcConfigured = false) :=
  (claim_C5_gated_operations.1 (mkState none) none).2.1 rfl

/-- C6 (amended): every wallet-key input shorter than 32 characters is
rejected with nothing written; configure-wallet always reports an error
(`Invalid key format`, or `Invalid wallet key` on empty input), while
add-wallet reports `Invalid key format` for a nonempty short key but
silently ignores an empty input (its `if (walletKey)` has no else). -/
theorem claim_C6_short_key_amended (st : CliState) (file : Option Str)
    (key : Str) (hlen : key.length < 32) :
    handleConfigureWallet st key = (st, false) ∧
    (addWallet file key).1 = file ∧
    ((addWallet file key).2 = WalletAddResult.noInput ↔ key = []) ∧
    (key ≠ [] → (addWallet file key).2 = WalletAddResult.invalidKey) := by
  by_cases hk : key = []
  · subst hk
    simp [handleConfigureWallet, addWallet]
  · have hne : key.isEmpty = false := by
      simpa [List.isEmpty_iff] using hk
    simp [handleConfigureWallet, addWallet, hne, hlen, hk]

/-- C6 counterexample: the empty string has length `0 < 32`, yet add-wallet
takes the `if (walletKey)`-false path (lines 308-329), which writes nothing
and prints nothing — no error is reported. -/
theorem claim_C6_short_key_counterexample :
    (addWallet (some ("RPC_URL=x".data)) []).1 = some ("RPC_URL=x".data) ∧
    (addWallet (some ("RPC_URL=x".data)) []).2 = WalletAddResult.noInput ∧
    WalletAddResult.noInput ≠ WalletAddResult.invalidKey :=
  ⟨rfl, rfl, by decide⟩

/-- Witness for the amended C6 at the 5-character key `short`. -/
theorem claim_C6_short_key_amended_witness :
    handleConfigureWallet (mkState none) ("short".data) = (mkState none, false) ∧
    (addWallet none ("short".data)).1 = none ∧
    ((addWallet none ("short".data)).2 = WalletAddResult.noInput ↔
      ("short".data : Str) = []) ∧
    (("short".data : Str) ≠ [] →
      (addWallet none ("short".data)).2 = WalletAddResult.invalidKey) :=
  claim_C6_short_key_amended (mkState none) none ("short".data) (by decide)

/-- C7: configure-fees rejects — reporting an error and changing neither the
file nor the in-memory fee settings — whenever the minimum tip is negative,
the tip percent lies outside [0,100], or the recipient address (the prompt
result after the `||`-default fallback) is shorter than 32 characters. -/
theorem claim_C7_fee_validation (st : CliState) (minTip tipPercent : ℤ)
    (recipient : Str)
    (h : minTip < 0 ∨ tipPercent < 0 ∨ 100 < tipPercent ∨ recipient.length < 32) :
    handleConfigureFees st minTip tipPercent recipient = (st, false) := by
  rw [handleConfigureFees]
  split_ifs with h1 h2 h3
  · rfl
  · rfl
  · rfl
  · exfalso
    rcases h with h | h | h | h
    · exact h1 h
    · exact h2 (Or.inl h)
    · exact h2 (Or.inr h)
    · exact h3 h

/-- Witness for C7: a tip percent of 101 is rejected with no state change. -/
theorem claim_C7_fee_validation_witness :
    handleConfigureFees (mkState none) 10000 101
        ("CebN5WGQ4jvEPvsVU4EoHEpgzq1VV7AbicfhtW4xC9iM".data)
      = (mkState none, false) :=
  claim_C7_fee_validation (mkState none) 10000 101 _
    (Or.inr (Or.inr (Or.inl (by norm_num))))

/-- C8 (amended): at startup, the wallet, RPC and fee-settings booleans are
derived by substring search over the file (`WALLET_PRIVATE_KEY=`,
`RPC_URL=`, and the conjunction of `MIN_TIP_LAMPORTS=`, `TIP_PERCENT=`,
`FEE_RECIPIENT=`); `keypairsCreated` and `poolBundleReady` are not derived
from the file and are false at startup regardless of its contents; a
missing file leaves all five flags false. -/
theorem claim_C8_load_status_amended :
    (∀ config : Str,
      ((loadStatus (some config)).walletConfigured = true ↔
        ("WALLET_PRIVATE_KEY=".data) <:+: config) ∧
      ((loadStatus (some config)).rpcConfigured = true ↔
        ("RPC_URL=".data) <:+: config) ∧
      ((loadStatus (some config)).feeSettingsConfigured = true ↔
        (("MIN_TIP_LAMPORTS=".data) <:+: config ∧
         ("TIP_PERCENT=".data) <:+: config ∧
         ("FEE_RECIPIENT=".data) <:+: config))) ∧
    (∀ file : Option Str, (loadStatus file).keypairsCreated = false ∧
      (loadStatus file).poolBundleReady = false) ∧
    loadStatus none = initialStatus := by
  refine ⟨?_, ?_, rfl⟩
  · intro config
    refine ⟨?_, ?_, ?_⟩
    · simp [loadStatus, jsIncludes]
    · simp [loadStatus, jsIncludes]
    · simp [loadStatus, jsIncludes, and_assoc]
  · intro file
    cases file with
    | none => exact ⟨rfl, rfl⟩
    | some config => exact ⟨rfl, rfl⟩

/-- C8 counterexample: there is no "corresponding key" whose appearance as a
substring yields `keypairsCreated` (resp. `poolBundleReady`): any candidate
key appears in the file equal to the key itself, yet `loadStatus` still
reports the flag false.  So not all five booleans are substring-derived. -/
theorem claim_C8_load_status_counterexample :
    (¬ ∃ key : Str, ∀ config : Str,
      (loadStatus (some config)).keypairsCreated = jsIncludes config key) ∧
    (¬ ∃ key : Str, ∀ config : Str,
      (loadStatus (some config)).poolBundleReady = jsIncludes config key) := by
  constructor
  · rintro ⟨key, hkey⟩
    have h := hkey key
    rw [show (loadStatus (some key)).keypairsCreated = false from rfl,
      show jsIncludes key key = true from by simp [jsIncludes]] at h
    cases h
  · rintro ⟨key, hkey⟩
    have h := hkey key
    rw [show (loadStatus (some key)).poolBundleReady = false from rfl,
      show jsIncludes key key = true from by simp [jsIncludes]] at h
    cases h

/-- Status order: every flag true in `a` is still true in `b` (no flag reverts). -/
def statusLE (a b : SystemStatus) : Prop :=
  (a.walletConfigured = true → b.walletConfigured = true) ∧
  (a.rpcConfigured = true → b.rpcConfigured = true) ∧
  (a.keypairsCreated = true → b.keypairsCreated = true) ∧
  (a.poolBundleReady = true → b.poolBundleReady = true) ∧
  (a.feeSettingsConfigured = true → b.feeSettingsConfigured = true)

theorem statusLE_refl (a : SystemStatus) : statusLE a a :=
  ⟨id, id, id, id, id⟩

theorem statusLE_trans {a b c : SystemStatus} (h1 : statusLE a b)
    (h2 : statusLE b c) : statusLE a c :=
  ⟨fun h => h2.1 (h1.1 h), fun h => h2.2.1 (h1.2.1 h),
   fun h => h2.2.2.1 (h1.2.2.1 h), fun h => h2.2.2.2.1 (h1.2.2.2.1 h),
   fun h => h2.2.2.2.2 (h1.2.2.2.2 h)⟩

theorem configureWallet_mono (st : CliState) (key : Str) :
    statusLE st.status (handleConfigureWallet st key).1.status := by
  rw [handleConfigureWallet]
  split_ifs
  · exact statusLE_refl _
  · exact statusLE_refl _
  · exact ⟨fun _ => rfl, id, id, id, id⟩

theorem configureRPC_mono (st : CliState) (url : Str) :
    statusLE st.status (handleConfigureRPC st url).1.status := by
  rw [handleConfigureRPC]
  split_ifs
  · exact statusLE_refl _
  · exact ⟨id, fun _ => rfl, id, id, id⟩

theorem configureFees_mono (st : CliState) (a b : ℤ) (r : Str) :
    statusLE st.status (handleConfigureFees st a b r).1.status := by
  rw [handleConfigureFees]
  split_ifs
  · exact statusLE_refl _
  · exact statusLE_refl _
  · exact statusLE_refl _
  · exact ⟨id, id, id, id, fun _ => rfl⟩

theorem createKeypairs_mono (st : CliState) (n : Option ℤ) :
    statusLE st.status (handleCreateKeypairs st n).state.status := by
  unfold handleCreateKeypairs
  split_ifs <;>
    first
      | exact statusLE_refl _
      | (cases n with
          | none => exact statusLE_refl _
          | some v =>
            dsimp only
            split
            · exact statusLE_refl _
            · exact ⟨id, id, fun _ => rfl, id, id⟩)

theorem createPoolBundle_mono (st : CliState) (a : ℚ) (p : Str) :
    statusLE st.status (handleCreatePoolBundle st a p).state.status := by
  unfold handleCreatePoolBundle
  split_ifs <;>
    first
      | exact statusLE_refl _
      | exact ⟨id, id, id, fun _ => rfl, id⟩

theorem removeWallet_status (st : CliState) (k : ℤ) (r : CliState × Bool)
    (h : removeWallet st k = Except.ok r) : r.1.status = st.status := by
  rw [removeWallet] at h
  cases hv : viewWallets st.file with
  | error e =>
    rw [hv] at h
    simp at h
  | ok u =>
    cases u
    rw [hv] at h
    dsimp only at h
    split at h
    · split at h
      · injection h with h2
        rw [← h2]
      · split at h
        · injection h with h2
          rw [← h2]
        · injection h with h2
          rw [← h2]
    · injection h with h2
      rw [← h2]

theorem setPrimaryWallet_statusLE (st : CliState) (k : ℤ) (r : CliState × Bool)
    (h : setPrimaryWallet st k = Except.ok r) :
    statusLE st.status r.1.status := by
  rw [setPrimaryWallet] at h
  cases hv : viewWallets st.file with
  | error e =>
    rw [hv] at h
    simp at h
  | ok u =>
    cases u
    rw [hv] at h
    dsimp only at h
    split at h
    · split at h
      · injection h with h2
        rw [← h2]
        exact statusLE_refl _
      · split at h
        · injection h with h2
          rw [← h2]
          exact ⟨fun _ => rfl, id, id, id, id⟩
        · injection h with h2
          rw [← h2]
          exact statusLE_refl _
    · injection h with h2
      rw [← h2]
      exact statusLE_refl _

theorem menuStep_status_mono (st : CliState) (ev : MenuEvent) (st' : CliState)
    (h : menuStep st ev = Except.ok st') : statusLE st.status st'.status := by
  cases ev with
  | configureWallet key =>
    injection h with h2
    rw [← h2]
    exact configureWallet_mono st key
  | configureRPC url =>
    injection h with h2
    rw [← h2]
    exact configureRPC_mono st url
  | createKeypairs n =>
    injection h with h2
    rw [← h2]
    exact createKeypairs_mono st n
  | configureFees a b r =>
    injection h with h2
    rw [← h2]
    exact configureFees_mono st a b r
  | createPoolBundle a p =>
    injection h with h2
    rw [← h2]
    exact createPoolBundle_mono st a p
  | viewConfiguration =>
    injection h with h2
    rw [← h2]
    exact statusLE_refl _
  | invalidChoice =>
    injection h with h2
    rw [← h2]
    exact statusLE_refl _
  | manageWallets sub =>
    cases sub with
    | view =>
      rw [menuStep, handleManageWallets] at h
      cases hv : viewWallets st.file with
      | error e =>
        rw [hv] at h
        simp at h
      | ok u =>
        cases u
        rw [hv] at h
        injection h with h2
        rw [← h2]
        exact statusLE_refl _
    | add key =>
      rw [menuStep, handleManageWallets] at h
      injection h with h2
      rw [← h2]
      exact statusLE_refl _
    | back =>
      injection h with h2
      rw [← h2]
      exact statusLE_refl _
    | invalid =>
      injection h with h2
      rw [← h2]
      exact statusLE_refl _
    | remove k =>
      rw [menuStep, handleManageWallets] at h
      cases hr : removeWallet st k with
      | error e =>
        rw [hr] at h
        simp at h
      | ok r =>
        rw [hr] at h
        obtain ⟨st2, b⟩ := r
        injection h with h2
        rw [← h2]
        have := removeWallet_status st k (st2, b) hr
        rw [show (st2, b).1.status = st2.status from rfl] at this
        rw [this]
        exact statusLE_refl _
    | promote k =>
      rw [menuStep, handleManageWallets] at h
      cases hr : setPrimaryWallet st k with
      | error e =>
        rw [hr] at h
        simp at h
      | ok r =>
        rw [hr] at h
        obtain ⟨st2, b⟩ := r
        injection h with h2
        rw [← h2]
        exact setPrimaryWallet_statusLE st k (st2, b) hr

theorem runMenu_status_mono (evs : List MenuEvent) :
    ∀ st st' : CliState, runMenu st evs = Except.ok st' →
      statusLE st.status st'.status := by
  induction evs with
  | nil =>
    intro st st' h
    injection h with h2
    rw [← h2]
    exact statusLE_refl _
  | cons ev evs ih =>
    intro st st' h
    rw [runMenu] at h
    cases hs : menuStep st ev with
    | error e =>
      rw [hs] at h
      simp at h
    | ok st1 =>
      rw [hs] at h
      exact statusLE_trans (menuStep_status_mono st ev st1 hs) (ih st1 st' h)

/-- C9: status flags are monotone across the menu loop: a single menu step,
and hence any whole run of the loop, never sets a `SystemStatus` flag from
true back to false — in particular removing every `WALLET_` line from the
file leaves `walletConfigured` true for the rest of the session. -/
theorem claim_C9_status_monotone :
    (∀ (st : CliState) (ev : MenuEvent) (st' : CliState),
      menuStep st ev = Except.ok st' → statusLE st.status st'.status) ∧
    (∀ (evs : List MenuEvent) (st st' : CliState),
      runMenu st evs = Except.ok st' → statusLE st.status st'.status) :=
  ⟨menuStep_status_mono, fun evs => runMenu_status_mono evs⟩

/-- Witness for C9: a concrete two-step run — configure a wallet, then
remove wallet 1 (which deletes the only `WALLET_` line) — still never drops
a flag; in particular `walletConfigured` stays true. -/
theorem claim_C9_status_monotone_witness :
    statusLE (mkState none).status
      ((handleConfigureWallet (mkState none)
        ("CebN5WGQ4jvEPvsVU4EoHEpgzq1VV7AbicfhtW4xC9iM".data)).1.status) :=
  claim_C9_status_monotone.1 (mkState none)
    (MenuEvent.configureWallet ("CebN5WGQ4jvEPvsVU4EoHEpgzq1VV7AbicfhtW4xC9iM".data))
    _ rfl

theorem natToStrAux_mem {c : Char} :
    ∀ {fuel n : ℕ}, c ∈ natToStrAux fuel n → ∃ d, d < 10 ∧ c = digitChar d := by
  intro fuel
  induction fuel with
  | zero =>
    intro n h
    simp [natToStrAux] at h
  | succ fuel ih =>
    intro n h
    rw [natToStrAux] at h
    by_cases hn : n < 10
    · rw [if_pos hn] at h
      rw [List.mem_singleton] at h
      exact ⟨n, hn, h⟩
    · rw [if_neg hn] at h
      rcases List.mem_append.mp h with h1 | h2
      · exact ih h1
      · rw [List.mem_singleton] at h2
        exact ⟨n % 10, Nat.mod_lt _ (by norm_num), h2⟩

theorem natToStr_no_newline (n : ℕ) : '\n' ∉ natToStr n := by
  intro h
  obtain ⟨d, hd, hc⟩ := natToStrAux_mem h
  interval_cases d <;> exact absurd hc (by decide)

theorem walletKeyName_no_newline (n : ℕ) : '\n' ∉ walletKeyName n := by
  intro h
  rw [walletKeyName] at h
  rcases List.mem_append.mp h with h1 | h2
  · rcases List.mem_append.mp h1 with h3 | h4
    · exact absurd h3 (by decide)
    · exact natToStr_no_newline n h4
  · exact absurd h2 (by decide)

/-- C10: for any file and any accepted key (length at least 32; prompt input,
hence newline-free), add-wallet leaves every existing line unchanged and
appends exactly one line named `WALLET_(n+1)_PRIVATE_KEY`, where `n` is the
number of occurrences of `WALLET_<digits>_PRIVATE_KEY` in the file;
consequently, on a file with non-contiguous wallet indices 1 and 3 (as left
by a removal), the appended name `WALLET_3_PRIVATE_KEY` duplicates an
existing key. -/
theorem claim_C10_add_wallet :
    (∀ (env key : Str), 32 ≤ key.length → '\n' ∉ key →
      (addWallet (some env) key).1
          = some (env ++ '\n'
              :: (walletKeyName (countWalletMatches env + 1) ++ '=' :: key)) ∧
      splitLines ((addWallet (some env) key).1.getD [])
          = splitLines env
              ++ [walletKeyName (countWalletMatches env + 1) ++ '=' :: key]) ∧
    countWalletMatches
        ("WALLET_1_PRIVATE_KEY=aaa\nWALLET_3_PRIVATE_KEY=bbb".data) = 2 ∧
    ((splitLines ((addWallet
        (some ("WALLET_1_PRIVATE_KEY=aaa\nWALLET_3_PRIVATE_KEY=bbb".data))
        ("aaaaaaaabbbbbbbbccccccccdddddddd".data)).1.getD [])).filter
      (fun l => jsStartsWith l ("WALLET_3_PRIVATE_KEY=".data))).length = 2 := by
  refine ⟨?_, by decide, by decide⟩
  intro env key h32 hnl
  have hne : key.isEmpty = false := by
    cases key with
    | nil => simp at h32
    | cons c rest => rfl
  have hlt : ¬ (key.length < 32) := not_lt.mpr h32
  have h1 : (addWallet (some env) key).1
      = some (env ++ '\n'
          :: (walletKeyName (countWalletMatches env + 1) ++ '=' :: key)) := by
    rw [addWallet, hne]
    simp only [Bool.false_eq_true, if_false, if_neg hlt, Option.getD_some]
  refine ⟨h1, ?_⟩
  rw [h1]
  have hlineN : '\n' ∉ walletKeyName (countWalletMatches env + 1) ++ '=' :: key := by
    intro hmem
    rcases List.mem_append.mp hmem with hm1 | hm2
    · exact walletKeyName_no_newline _ hm1
    · rcases List.mem_cons.mp hm2 with hm3 | hm4
      · simp at hm3
      · exact hnl hm4
  rw [Option.getD_some, splitLines_append, splitLines_no_newline hlineN]

/-- Witness for C10: adding a 32-character key to a one-line file appends
the single line `WALLET_1_PRIVATE_KEY=<key>`. -/
theorem claim_C10_add_wallet_witness :
    splitLines ((addWallet (some ("RPC_URL=x".data))
        ("aaaaaaaabbbbbbbbccccccccdddddddd".data)).1.getD [])
      = splitLines ("RPC_URL=x".data)
          ++ [walletKeyName (countWalletMatches ("RPC_URL=x".data) + 1)
              ++ '=' :: ("aaaaaaaabbbbbbbbccccccccdddddddd".data)] :=
  (claim_C10_add_wallet.1 ("RPC_URL=x".data)
    ("aaaaaaaabbbbbbbbccccccccdddddddd".data) (by decide) (by decide)).2
